import Mathlib

/-!
Verification development for the Wanggan GPS device communication library
(`wanggan_gps.py`).  The line parsers (`parse_dms_coordinate`,
`parse_track_line`, `parse_header_line`), the track assembler
(`parse_raw_data`), the receive loop (`receive_data`) and the export
dispatch (`export_tracks`) are shallowly embedded below.  Python regular
expressions anchored with `re.match` are modelled by explicit prefix
parsers over `List Char`; every `\d+` group is maximal-munch, which agrees
with the regex semantics because each digit group in the patterns is
followed by a non-digit literal (or is the final group, where greedy
matching also takes the maximal run).  Python floats are modelled by exact
rationals; byte strings by `List Nat`.
-/

namespace Wanggan

/-- Apostrophe character (code 39), the minutes mark in DMS tokens. -/
def apos : Char := Char.ofNat 39

/-- Double-quote character (code 34), the seconds mark in DMS tokens. -/
def quot : Char := Char.ofNat 34

/-- Numeric value of a string of decimal digits, as Python int() of the digits. -/
def digitsToNat (ds : List Char) : Nat :=
  ds.foldl (fun a c => a * 10 + (c.toNat - 48)) 0

/-- Match a single literal character at the head of the input (regex literal). -/
def expect (c : Char) : List Char → Option (List Char)
  | [] => none
  | x :: xs => if x = c then some xs else none

/-- Match one sign character, regex class `[+-]`. -/
def takeSign : List Char → Option (Char × List Char)
  | [] => none
  | x :: xs => if x = '+' ∨ x = '-' then some (x, xs) else none

/-- Match one lowercase letter, regex class `[a-z]`. -/
def takeLower : List Char → Option (Char × List Char)
  | [] => none
  | x :: xs => if 'a' ≤ x ∧ x ≤ 'z' then some (x, xs) else none

/-- Split the input into its maximal leading digit run and the rest. -/
def splitDigits : List Char → List Char × List Char
  | [] => ([], [])
  | c :: cs =>
    if c.isDigit then (c :: (splitDigits cs).1, (splitDigits cs).2)
    else ([], c :: cs)

/-- Regex group `(\d+)`: at least one digit, maximal run. -/
def takeDigits1 (l : List Char) : Option (List Char × List Char) :=
  if (splitDigits l).1 = [] then none else some (splitDigits l)

/-- Capture groups of the DMS regex in `parse_dms_coordinate`:
sign, degrees digits, minutes digits, integer and fractional second digits. -/
structure DmsCaps where
  sign : Char
  degrees : List Char
  minutes : List Char
  secInt : List Char
  secFrac : List Char
deriving DecidableEq, Repr

/-- Prefix matcher for the regex of `parse_dms_coordinate`:
`([+-])(\d+)d(\d+)'(\d+\.\d+)"` (anchored at the start, trailing input
returned as remainder). -/
def dms_match (cs : List Char) : Option (DmsCaps × List Char) :=
  (takeSign cs).bind fun p1 =>
  (takeDigits1 p1.2).bind fun p2 =>
  (expect 'd' p2.2).bind fun cs3 =>
  (takeDigits1 cs3).bind fun p3 =>
  (expect apos p3.2).bind fun cs4 =>
  (takeDigits1 cs4).bind fun p4 =>
  (expect '.' p4.2).bind fun cs5 =>
  (takeDigits1 cs5).bind fun p5 =>
  (expect quot p5.2).map fun rest =>
    (⟨p1.1, p2.1, p3.1, p4.1, p5.1⟩, rest)

/-- `WangganGPS.parse_dms_coordinate`: DMS string to decimal degrees,
`sign * (degrees + minutes/60 + seconds/3600)`; sign is −1 when the sign
character is the minus sign, +1 otherwise.  The decimal seconds value
`float("<int>.<frac>")` is `int + frac / 10^len(frac)`. -/
def parse_dms_coordinate (cs : List Char) : Option ℚ :=
  (dms_match cs).map fun p =>
    (if p.1.sign = '-' then (-1 : ℚ) else 1) *
      ((digitsToNat p.1.degrees : ℚ) + (digitsToNat p.1.minutes : ℚ) / 60 +
        ((digitsToNat p.1.secInt : ℚ) +
          (digitsToNat p.1.secFrac : ℚ) / 10 ^ p.1.secFrac.length) / 3600)

/-- Regex group `([+-]\d+d\d+'\d+\.\d+")` of `parse_track_line`: matches one
DMS token and captures the matched substring verbatim (the source re-parses
this captured text with `parse_dms_coordinate`). -/
def dms_token_match (cs : List Char) : Option (List Char × List Char) :=
  (takeSign cs).bind fun p1 =>
  (takeDigits1 p1.2).bind fun p2 =>
  (expect 'd' p2.2).bind fun cs3 =>
  (takeDigits1 cs3).bind fun p3 =>
  (expect apos p3.2).bind fun cs4 =>
  (takeDigits1 cs4).bind fun p4 =>
  (expect '.' p4.2).bind fun cs5 =>
  (takeDigits1 cs5).bind fun p5 =>
  (expect quot p5.2).map fun rest =>
    (p1.1 :: p2.1 ++ 'd' :: p3.1 ++ apos :: p4.1 ++ '.' :: p5.1 ++ [quot], rest)

/-- Prefix matcher for the regex of `parse_track_line`:
`([+-]\d+d\d+'\d+\.\d+")\,([+-]\d+d\d+'\d+\.\d+")\,(\d+);` with capture
groups (longitude token, latitude token, altitude digits). -/
def track_match (cs : List Char) :
    Option ((List Char × List Char × List Char) × List Char) :=
  (dms_token_match cs).bind fun p1 =>
  (expect ',' p1.2).bind fun cs2 =>
  (dms_token_match cs2).bind fun p2 =>
  (expect ',' p2.2).bind fun cs3 =>
  (takeDigits1 cs3).bind fun p3 =>
  (expect ';' p3.2).map fun rest => ((p1.1, p2.1, p3.1), rest)

/-- A parsed coordinate record: (longitude, latitude, altitude). -/
abbrev Point : Type := ℚ × ℚ × Nat

/-- `WangganGPS.parse_track_line`: match the coordinate-line regex, then
decode the two captured DMS tokens with `parse_dms_coordinate`; any failure
yields `none`. -/
def parse_track_line (cs : List Char) : Option Point :=
  (track_match cs).bind fun p =>
    match parse_dms_coordinate p.1.1, parse_dms_coordinate p.1.2.1 with
    | some lon, some lat => some (lon, lat, digitsToNat p.1.2.2)
    | _, _ => none

/-- Capture groups of the header-line regex
`n(\d+),([a-z])(\d+),([a-z])(\d+);t(\d+),N(\d+)`. -/
structure HeaderCaps where
  record_num : List Char
  field1 : Char
  value1 : List Char
  field2 : Char
  value2 : List Char
  tstamp : List Char
  total : List Char
deriving DecidableEq, Repr

/-- Prefix matcher for the header-line regex of `parse_header_line`. -/
def header_match (cs : List Char) : Option (HeaderCaps × List Char) :=
  (expect 'n' cs).bind fun cs1 =>
  (takeDigits1 cs1).bind fun p1 =>
  (expect ',' p1.2).bind fun cs2 =>
  (takeLower cs2).bind fun q1 =>
  (takeDigits1 q1.2).bind fun p2 =>
  (expect ',' p2.2).bind fun cs3 =>
  (takeLower cs3).bind fun q2 =>
  (takeDigits1 q2.2).bind fun p3 =>
  (expect ';' p3.2).bind fun cs4 =>
  (expect 't' cs4).bind fun cs5 =>
  (takeDigits1 cs5).bind fun p4 =>
  (expect ',' p4.2).bind fun cs6 =>
  (expect 'N' cs6).bind fun cs7 =>
  (takeDigits1 cs7).map fun p5 =>
    (⟨p1.1, q1.1, p2.1, q2.1, p3.1, p4.1, p5.1⟩, p5.2)

/-- The data type tag assigned by `parse_header_line` (a string in the
source: Area, Distance, Waypoint, Track, or the formatted
Unknown(field1,field2)). -/
inductive DataType
  | Area | Distance | Waypoint | Track
  | Unknown (field1 field2 : Char)
deriving DecidableEq, Repr

/-- The metadata dictionary returned by `parse_header_line`. -/
structure Header where
  dtype : DataType
  record_num : Nat
  latitude : ℚ
  longitude : ℚ
  tstamp : List Char
  total_records : Nat
deriving DecidableEq, Repr

/-- The field-code dispatch of `parse_header_line`: from the two letter
codes and the two digit captures to (data type, latitude, longitude). -/
def header_fields (f1 f2 : Char) (v1 v2 : List Char) : DataType × ℚ × ℚ :=
  if f1 = 'm' ∧ f2 = 'l' then
    (DataType.Area, (digitsToNat v1 : ℚ) / 10000000, (digitsToNat v2 : ℚ) / 10000000)
  else if f1 = 'l' ∧ f2 = 'm' then
    (DataType.Distance, (digitsToNat v2 : ℚ) / 10000000, (digitsToNat v1 : ℚ) / 10000000)
  else if f1 = 'p' ∧ f2 = 'p' then
    (DataType.Waypoint, (digitsToNat v1 : ℚ) / 10000000, (digitsToNat v2 : ℚ) / 10000000)
  else if f1 = 'k' ∧ f2 = 'l' then
    (DataType.Track, 0, (digitsToNat v2 : ℚ) / 10000000)
  else
    (DataType.Unknown f1 f2, 0, 0)

/-- Build the header record from the regex captures: field-code dispatch for
type and coordinates, and positional split of the timestamp digits
(`timestamp[:4]`, `[4:6]`, `[6:8]`, `[8:10]`, `[10:12]`) formatted as
`YYYY-MM-DD HH:MM`. -/
def headerOfCaps (c : HeaderCaps) : Header :=
  { dtype := (header_fields c.field1 c.field2 c.value1 c.value2).1
    record_num := digitsToNat c.record_num
    latitude := (header_fields c.field1 c.field2 c.value1 c.value2).2.1
    longitude := (header_fields c.field1 c.field2 c.value1 c.value2).2.2
    tstamp := c.tstamp.take 4 ++ '-' :: (c.tstamp.drop 4).take 2 ++
      '-' :: (c.tstamp.drop 6).take 2 ++ ' ' :: (c.tstamp.drop 8).take 2 ++
      ':' :: (c.tstamp.drop 10).take 2
    total_records := digitsToNat c.total }

/-- `WangganGPS.parse_header_line`: match the header regex, then build the
metadata record. -/
def parse_header_line (cs : List Char) : Option Header :=
  (header_match cs).map fun p => headerOfCaps p.1

/-- Characters removed by Python str.strip() on ASCII text, i.e. the
characters below code 128 for which str.isspace() holds: space, tab,
newline, vertical tab, form feed, carriage return (codes 9 to 13 and 32),
and the separator control characters U+001C to U+001F (codes 28 to 31). -/
def isStripChar (c : Char) : Bool :=
  c == ' ' || c == Char.ofNat 9 || c == Char.ofNat 10 ||
  c == Char.ofNat 13 || c == Char.ofNat 11 || c == Char.ofNat 12 ||
  c == Char.ofNat 28 || c == Char.ofNat 29 || c == Char.ofNat 30 ||
  c == Char.ofNat 31

/-- `line.strip()`: drop leading and trailing whitespace. -/
def trim (l : List Char) : List Char :=
  ((l.dropWhile isStripChar).reverse.dropWhile isStripChar).reverse

/-- `data.decode('ascii', errors='ignore')`: non-ASCII bytes are dropped,
the rest become characters. -/
def decode_ascii (bytes : List Nat) : List Char :=
  (bytes.filter fun b => b < 128).map Char.ofNat

/-- `text.split('\n')` on a character list (Python str.split semantics:
the empty text yields one empty line). -/
def splitNl : List Char → List (List Char)
  | [] => [[]]
  | c :: cs =>
    if c = Char.ofNat 10 then [] :: splitNl cs
    else
      match splitNl cs with
      | [] => [[c]]
      | l :: ls => (c :: l) :: ls

/-- The logical lines of a raw session buffer, before stripping. -/
def linesOf (data : List Nat) : List (List Char) :=
  splitNl (decode_ascii data)

/-- One assembled track: optional header and the ordered point list. -/
abbrev Track : Type := Option Header × List Point

/-- The line-folding loop of `parse_raw_data`: strip each line, skip blank
lines and the end-of-track sentinel, try the header parse (flushing the
current track and starting a new one), else try the coordinate parse
(appending the point), else skip the line; flush the final track when the
header is set or points were accumulated. -/
def assembleLines : List (List Char) → Option Header → List Point → List Track
  | [], cur, pts => if cur.isSome || !pts.isEmpty then [(cur, pts)] else []
  | l :: ls, cur, pts =>
    if trim l = [] ∨ trim l = ['!'] then assembleLines ls cur pts
    else
      match parse_header_line (trim l) with
      | some h =>
        (if cur.isSome || !pts.isEmpty then [(cur, pts)] else []) ++
          assembleLines ls (some h) []
      | none =>
        match parse_track_line (trim l) with
        | some p => assembleLines ls cur (pts ++ [p])
        | none => assembleLines ls cur pts

/-- `WangganGPS.parse_raw_data`: decode the buffer, split into lines and
fold them into tracks. -/
def parse_raw_data (data : List Nat) : List Track :=
  assembleLines (linesOf data) none []

/-- How the receive loop of `receive_data` ended: by the idle-silence break
or by the hard timeout expiring on the while condition. -/
inductive ExitReason
  | idleBreak | hardTimeout
deriving DecidableEq, Repr

/-- The polling loop of `receive_data`, with one loop iteration per time
tick (the fixed sleep between polls).  `polls` lists the chunk available at
each tick (an exhausted list means silence).  Each tick with data appends
the chunk and re-primes the idle clock to the current tick; each silent
tick checks the idle clock only when it has been primed by earlier data.
Returns the accumulated bytes, how the loop ended, and the tick at which it
ended. -/
def receive_loop (idle : Nat) :
    Nat → Nat → List (List Nat) → Option Nat → List Nat →
    List Nat × ExitReason × Nat
  | 0, t, _polls, _last, acc => (acc, ExitReason.hardTimeout, t)
  | fuel + 1, t, polls, last, acc =>
    if polls.headD [] = [] then
      match last with
      | some ld =>
        if idle ≤ t - ld then (acc, ExitReason.idleBreak, t)
        else receive_loop idle fuel (t + 1) polls.tail (some ld) acc
      | none => receive_loop idle fuel (t + 1) polls.tail none acc
    else
      receive_loop idle fuel (t + 1) polls.tail (some t) (acc ++ polls.headD [])

/-- `WangganGPS.receive_data`: returns `none` when the device is not
connected, otherwise runs the polling loop from tick 0 with an unprimed
idle clock and an empty buffer and returns `all_data if all_data else
None`. -/
def receive_data (timeout idle : Nat) (connected : Bool)
    (polls : List (List Nat)) : Option (List Nat) :=
  if !connected then none
  else
    let r := receive_loop idle timeout 0 polls none []
    if r.1 = [] then none else some r.1

/-- Output formats of `export_tracks`. -/
inductive OutputFormat
  | gpx | kml | csv | raw
deriving DecidableEq, Repr

/-- The observable file-production plan of `export_tracks`: a verbatim raw
dump, one file per listed track (its header is used for naming, its points
are the file contents), or a single combined file of concatenated points.
Writing the bytes to disk is a collaborator and is elided. -/
inductive ExportPlan
  | rawDump (data : List Nat)
  | perTrack (files : List Track)
  | combined (points : List Point)
deriving DecidableEq, Repr

/-- `WangganGPS.export_tracks`: the RAW format dumps the bytes verbatim;
otherwise the buffer is parsed and, when `split_by_track` is set and some
track has a header, each track with a non-empty point list becomes its own
file; in every other case all points are concatenated in track order into
one combined file. -/
def export_tracks (data : List Nat) (fmt : OutputFormat)
    (split_by_track : Bool) : ExportPlan :=
  if fmt = OutputFormat.raw then ExportPlan.rawDump data
  else
    let tracks := parse_raw_data data
    if split_by_track && tracks.any (fun t => t.1.isSome) then
      ExportPlan.perTrack (tracks.filter fun t => !t.2.isEmpty)
    else
      ExportPlan.combined (tracks.foldl (fun acc t => acc ++ t.2) [])

/-! ### Lemmas about the parsing primitives -/

theorem expect_ne_nil {c : Char} {l r : List Char} (h : expect c l = some r) :
    l ≠ [] := by
  intro hnil; subst hnil; exact Option.noConfusion h

theorem expect_append {c : Char} {l r : List Char} (j : List Char)
    (h : expect c l = some r) : expect c (l ++ j) = some (r ++ j) := by
  cases l with
  | nil => exact absurd h (by simp [expect])
  | cons x xs =>
    simp only [expect] at h ⊢
    split at h
    · simp_all [expect]
    · exact Option.noConfusion h

theorem takeSign_append {l : List Char} {p : Char × List Char} (j : List Char)
    (h : takeSign l = some p) : takeSign (l ++ j) = some (p.1, p.2 ++ j) := by
  cases l with
  | nil => exact absurd h (by simp [takeSign])
  | cons x xs =>
    simp only [takeSign] at h ⊢
    split at h
    · cases h; simp_all [takeSign]
    · exact Option.noConfusion h

theorem takeLower_append {l : List Char} {p : Char × List Char} (j : List Char)
    (h : takeLower l = some p) : takeLower (l ++ j) = some (p.1, p.2 ++ j) := by
  cases l with
  | nil => exact absurd h (by simp [takeLower])
  | cons x xs =>
    simp only [takeLower] at h ⊢
    split at h
    · cases h; simp_all [takeLower]
    · exact Option.noConfusion h

theorem splitDigits_append_ne {l : List Char} (j : List Char)
    (hr : (splitDigits l).2 ≠ []) :
    splitDigits (l ++ j) = ((splitDigits l).1, (splitDigits l).2 ++ j) := by
  induction l with
  | nil => exact absurd rfl hr
  | cons c cs ih =>
    by_cases hd : c.isDigit = true
    · have hr2 : (splitDigits cs).2 ≠ [] := by simpa [splitDigits, hd] using hr
      simp [splitDigits, hd, ih hr2]
    · simp [splitDigits, hd]

theorem splitDigits_append_nil {l : List Char} (j : List Char)
    (hr : (splitDigits l).2 = []) (hj : (j.headD ' ').isDigit = false) :
    splitDigits (l ++ j) = ((splitDigits l).1, j) := by
  induction l with
  | nil =>
    cases j with
    | nil => simp [splitDigits]
    | cons x xs => simp_all [splitDigits]
  | cons c cs ih =>
    by_cases hd : c.isDigit = true
    · have hr2 : (splitDigits cs).2 = [] := by simpa [splitDigits, hd] using hr
      simp [splitDigits, hd, ih hr2]
    · exact absurd hr (by simp [splitDigits, hd])

theorem takeDigits1_append_ne {l d r : List Char} (j : List Char)
    (h : takeDigits1 l = some (d, r)) (hr : r ≠ []) :
    takeDigits1 (l ++ j) = some (d, r ++ j) := by
  simp only [takeDigits1] at h ⊢
  split at h
  · exact Option.noConfusion h
  · rename_i hne
    have h1 : (splitDigits l).1 = d := congrArg Prod.fst (Option.some.inj h)
    have h2 : (splitDigits l).2 = r := congrArg Prod.snd (Option.some.inj h)
    rw [splitDigits_append_ne j (h2 ▸ hr)]
    simp [h1, h2, h1 ▸ hne]

theorem takeDigits1_append_nil {l d : List Char} (j : List Char)
    (h : takeDigits1 l = some (d, [])) (hj : (j.headD ' ').isDigit = false) :
    takeDigits1 (l ++ j) = some (d, j) := by
  simp only [takeDigits1] at h ⊢
  split at h
  · exact Option.noConfusion h
  · rename_i hne
    have h1 : (splitDigits l).1 = d := congrArg Prod.fst (Option.some.inj h)
    have h2 : (splitDigits l).2 = [] := congrArg Prod.snd (Option.some.inj h)
    rw [splitDigits_append_nil j h2 hj]
    simp [h1, h1 ▸ hne]

theorem splitDigits_all_digits (l : List Char) :
    ∀ c ∈ (splitDigits l).1, c.isDigit := by
  induction l with
  | nil => simp [splitDigits]
  | cons x xs ih =>
    simp only [splitDigits]
    split
    · rename_i hd
      intro c hc
      rcases List.mem_cons.1 hc with h | h
      · exact h ▸ hd
      · exact ih c h
    · simp

theorem takeDigits1_digits {l d r : List Char} (h : takeDigits1 l = some (d, r)) :
    d ≠ [] ∧ ∀ c ∈ d, c.isDigit := by
  simp only [takeDigits1] at h
  split at h
  · exact Option.noConfusion h
  · rename_i hne
    have h1 : (splitDigits l).1 = d := by
      have := congrArg Prod.fst (Option.some.inj h); simpa using this
    exact ⟨h1 ▸ hne, h1 ▸ splitDigits_all_digits l⟩

theorem dms_token_match_append {l : List Char} {p : List Char × List Char}
    (j : List Char) (h : dms_token_match l = some p) :
    dms_token_match (l ++ j) = some (p.1, p.2 ++ j) := by
  simp only [dms_token_match, Option.bind_eq_some, Option.map_eq_some'] at h ⊢
  obtain ⟨p1, h1, p2, h2, cs3, h3, p3, h4, cs4, h5, p4, h6, cs5, h7, p5, h8,
    rest, h9, hp⟩ := h
  subst hp
  exact ⟨(p1.1, p1.2 ++ j), takeSign_append j h1,
    (p2.1, p2.2 ++ j), takeDigits1_append_ne j h2 (expect_ne_nil h3),
    cs3 ++ j, expect_append j h3,
    (p3.1, p3.2 ++ j), takeDigits1_append_ne j h4 (expect_ne_nil h5),
    cs4 ++ j, expect_append j h5,
    (p4.1, p4.2 ++ j), takeDigits1_append_ne j h6 (expect_ne_nil h7),
    cs5 ++ j, expect_append j h7,
    (p5.1, p5.2 ++ j), takeDigits1_append_ne j h8 (expect_ne_nil h9),
    rest ++ j, expect_append j h9, rfl⟩

theorem track_match_append {l : List Char}
    {p : (List Char × List Char × List Char) × List Char} (j : List Char)
    (h : track_match l = some p) :
    track_match (l ++ j) = some (p.1, p.2 ++ j) := by
  simp only [track_match, Option.bind_eq_some, Option.map_eq_some'] at h ⊢
  obtain ⟨p1, h1, cs2, h2, p2, h3, cs3, h4, p3, h5, rest, h6, hp⟩ := h
  subst hp
  exact ⟨(p1.1, p1.2 ++ j), dms_token_match_append j h1,
    cs2 ++ j, expect_append j h2,
    (p2.1, p2.2 ++ j), dms_token_match_append j h3,
    cs3 ++ j, expect_append j h4,
    (p3.1, p3.2 ++ j), takeDigits1_append_ne j h5 (expect_ne_nil h6),
    rest ++ j, expect_append j h6, rfl⟩

theorem header_match_append {l : List Char} {caps : HeaderCaps} (j : List Char)
    (h : header_match l = some (caps, []))
    (hj : (j.headD ' ').isDigit = false) :
    header_match (l ++ j) = some (caps, j) := by
  simp only [header_match, Option.bind_eq_some, Option.map_eq_some'] at h ⊢
  obtain ⟨cs1, h1, p1, h2, cs2, h3, q1, h4, p2, h5, cs3, h6, q2, h7, p3, h8,
    cs4, h9, cs5, h10, p4, h11, cs6, h12, cs7, h13, p5, h14, hp⟩ := h
  have h52 : p5.2 = [] := congrArg Prod.snd hp
  have hcaps : (⟨p1.1, q1.1, p2.1, q2.1, p3.1, p4.1, p5.1⟩ : HeaderCaps) = caps :=
    congrArg Prod.fst hp
  have hp5 : p5 = (p5.1, []) := by rw [← h52]
  rw [hp5] at h14
  exact ⟨cs1 ++ j, expect_append j h1,
    (p1.1, p1.2 ++ j), takeDigits1_append_ne j h2 (expect_ne_nil h3),
    cs2 ++ j, expect_append j h3,
    (q1.1, q1.2 ++ j), takeLower_append j h4,
    (p2.1, p2.2 ++ j), takeDigits1_append_ne j h5 (expect_ne_nil h6),
    cs3 ++ j, expect_append j h6,
    (q2.1, q2.2 ++ j), takeLower_append j h7,
    (p3.1, p3.2 ++ j), takeDigits1_append_ne j h8 (expect_ne_nil h9),
    cs4 ++ j, expect_append j h9,
    cs5 ++ j, expect_append j h10,
    (p4.1, p4.2 ++ j), takeDigits1_append_ne j h11 (expect_ne_nil h12),
    cs6 ++ j, expect_append j h12,
    cs7 ++ j, expect_append j h13,
    (p5.1, j), takeDigits1_append_nil j h14 hj,
    by rw [← hcaps]⟩

/-- The timestamp capture of a matched header line is a non-empty run of
digits (any length; the regex does not require twelve). -/
theorem header_match_tstamp_digits {l : List Char} {caps : HeaderCaps}
    {rest : List Char} (h : header_match l = some (caps, rest)) :
    caps.tstamp ≠ [] ∧ ∀ c ∈ caps.tstamp, c.isDigit := by
  simp only [header_match, Option.bind_eq_some, Option.map_eq_some'] at h
  obtain ⟨cs1, h1, p1, h2, cs2, h3, q1, h4, p2, h5, cs3, h6, q2, h7, p3, h8,
    cs4, h9, cs5, h10, p4, h11, cs6, h12, cs7, h13, p5, h14, hp⟩ := h
  have hcaps : (⟨p1.1, q1.1, p2.1, q2.1, p3.1, p4.1, p5.1⟩ : HeaderCaps) = caps :=
    congrArg Prod.fst hp
  have := takeDigits1_digits h11
  rw [← hcaps]
  exact this

theorem parse_header_line_nil : parse_header_line [] = none := rfl

theorem parse_header_line_bang : parse_header_line ['!'] = none := rfl

theorem parse_track_line_nil : parse_track_line [] = none := rfl

theorem parse_track_line_bang : parse_track_line ['!'] = none := rfl

/-- Flushing the current accumulator contributes exactly the current header
(if any) to the header sequence of the output. -/
theorem flush_headers (cur : Option Header) (pts : List Point) :
    ((if cur.isSome || !pts.isEmpty then [(cur, pts)] else []) :
      List Track).filterMap Prod.fst = cur.toList := by
  cases cur <;> cases pts <;> simp

/-- The headers of the assembled tracks, in order, are the pending current
header followed by the headers parsed from the lines, in input order. -/
theorem assemble_headers (ls : List (List Char)) :
    ∀ (cur : Option Header) (pts : List Point),
      (assembleLines ls cur pts).filterMap Prod.fst =
        cur.toList ++ ls.filterMap (fun l => parse_header_line (trim l)) := by
  induction ls with
  | nil => intro cur pts; cases cur <;> cases pts <;> simp [assembleLines]
  | cons l ls ih =>
    intro cur pts
    by_cases hskip : trim l = [] ∨ trim l = ['!']
    · have hnone : parse_header_line (trim l) = none := by
        rcases hskip with h | h <;> rw [h]
        · exact parse_header_line_nil
        · exact parse_header_line_bang
      rw [show assembleLines (l :: ls) cur pts = assembleLines ls cur pts from by
        simp [assembleLines, hskip]]
      simp [ih, hnone]
    · cases hph : parse_header_line (trim l) with
      | some h =>
        rw [show assembleLines (l :: ls) cur pts =
            (if cur.isSome || !pts.isEmpty then [(cur, pts)] else []) ++
              assembleLines ls (some h) [] from by
          simp [assembleLines, hskip, hph]]
        rw [List.filterMap_append, flush_headers, ih]
        simp [hph]
      | none =>
        cases hpt : parse_track_line (trim l) with
        | some p =>
          rw [show assembleLines (l :: ls) cur pts =
              assembleLines ls cur (pts ++ [p]) from by
            simp [assembleLines, hskip, hph, hpt]]
          simp [ih, hph]
        | none =>
          rw [show assembleLines (l :: ls) cur pts =
              assembleLines ls cur pts from by
            simp [assembleLines, hskip, hph, hpt]]
          simp [ih, hph]

/-- Folding a line list that holds only blank lines, sentinel lines and
coordinate lines (never a header) onto a headerless accumulator produces at
most one track: the headerless one, with the coordinate parses appended in
input order. -/
theorem assemble_coords_aux (ls : List (List Char)) :
    (∀ l ∈ ls, trim l = [] ∨ trim l = ['!'] ∨
      (parse_header_line (trim l) = none ∧ (parse_track_line (trim l)).isSome)) →
    ∀ pts : List Point,
      assembleLines ls none pts =
        if pts = [] ∧ ls.filterMap (fun l => parse_track_line (trim l)) = [] then []
        else [(none, pts ++ ls.filterMap (fun l => parse_track_line (trim l)))] := by
  induction ls with
  | nil => intro _ pts; cases pts <;> simp [assembleLines]
  | cons l ls ih =>
    intro hall pts
    have hl := hall l (by simp)
    have hrest := fun m hm => hall m (List.mem_cons_of_mem l hm)
    rcases hl with h | h | ⟨hh, ht⟩
    · have hn : parse_track_line (trim l) = none := by rw [h]; exact parse_track_line_nil
      rw [show assembleLines (l :: ls) none pts = assembleLines ls none pts from by
        simp [assembleLines, h]]
      simp [ih hrest, hn]
    · have hn : parse_track_line (trim l) = none := by rw [h]; exact parse_track_line_bang
      rw [show assembleLines (l :: ls) none pts = assembleLines ls none pts from by
        simp [assembleLines, h]]
      simp [ih hrest, hn]
    · obtain ⟨p, hp⟩ := Option.isSome_iff_exists.1 ht
      have hskip : ¬(trim l = [] ∨ trim l = ['!']) := by
        rintro (h | h) <;> rw [h] at hp
        · exact Option.noConfusion (parse_track_line_nil ▸ hp)
        · exact Option.noConfusion (parse_track_line_bang ▸ hp)
      rw [show assembleLines (l :: ls) none pts =
          assembleLines ls none (pts ++ [p]) from by
        simp [assembleLines, hskip, hh, hp]]
      rw [ih hrest (pts ++ [p])]
      simp [hp]

/-- Folding a line list in which no line parses as a header or a coordinate
record onto an empty accumulator yields no tracks. -/
theorem assemble_skip_all (ls : List (List Char)) :
    (∀ l ∈ ls, parse_header_line (trim l) = none ∧
      parse_track_line (trim l) = none) →
    assembleLines ls none [] = [] := by
  induction ls with
  | nil => intro _; simp [assembleLines]
  | cons l ls ih =>
    intro hall
    have hl := hall l (by simp)
    have hrest := fun m hm => hall m (List.mem_cons_of_mem l hm)
    by_cases hskip : trim l = [] ∨ trim l = ['!']
    · rw [show assembleLines (l :: ls) none [] = assembleLines ls none [] from by
        simp [assembleLines, hskip]]
      exact ih hrest
    · rw [show assembleLines (l :: ls) none [] = assembleLines ls none [] from by
        simp [assembleLines, hskip, hl.1, hl.2]]
      exact ih hrest

/-! ### Lemmas about the receive loop -/

/-- With no data ever arriving the idle clock is never primed, so the loop
only ends when the hard timeout expires on the while condition. -/
theorem receive_loop_silent (idle : Nat) :
    ∀ (fuel t : Nat) (polls : List (List Nat)) (acc : List Nat),
      (∀ c ∈ polls, c = []) →
      receive_loop idle fuel t polls none acc =
        (acc, ExitReason.hardTimeout, t + fuel) := by
  intro fuel
  induction fuel with
  | zero => intro t polls acc _; simp [receive_loop]
  | succ f ih =>
    intro t polls acc hp
    have hh : polls.headD [] = [] := by
      cases polls with
      | nil => rfl
      | cons c cs => rw [List.headD_cons]; exact hp c (by simp)
    rw [show receive_loop idle (f + 1) t polls none acc =
        receive_loop idle f (t + 1) polls.tail none acc from by
      simp only [receive_loop]; rw [hh]; simp]
    rw [ih (t + 1) polls.tail acc (fun c hc => hp c (List.mem_of_mem_tail hc))]
    have : t + 1 + f = t + (f + 1) := by omega
    rw [this]

/-- A run of consecutive non-empty chunks is consumed one per tick; each
chunk is appended and the idle clock ends primed at the tick of the last
chunk. -/
theorem receive_loop_chunks (idle : Nat) (polls : List (List Nat)) :
    ∀ (cs : List (List Nat)), cs ≠ [] → (∀ c ∈ cs, c ≠ []) →
    ∀ (fuel t : Nat) (last : Option Nat) (acc : List Nat), cs.length ≤ fuel →
      receive_loop idle fuel t (cs ++ polls) last acc =
        receive_loop idle (fuel - cs.length) (t + cs.length) polls
          (some (t + cs.length - 1)) (acc ++ cs.flatten) := by
  intro cs
  induction cs with
  | nil => intro h; exact absurd rfl h
  | cons c cs ih =>
    intro _ hcs fuel t last acc hlen
    cases fuel with
    | zero => exact absurd hlen (by simp)
    | succ f =>
      have hc : c ≠ [] := hcs c (by simp)
      rw [show receive_loop idle (f + 1) t ((c :: cs) ++ polls) last acc =
          receive_loop idle f (t + 1) (cs ++ polls) (some t) (acc ++ c) from by
        simp only [List.cons_append, receive_loop, List.headD_cons, List.tail_cons]
        rw [if_neg hc]]
      cases cs with
      | nil =>
        simp [receive_loop]
      | cons c2 cs2 =>
        rw [ih (by simp) (fun x hx => hcs x (List.mem_cons_of_mem c hx))
          f (t + 1) (some t) (acc ++ c) (by simpa using Nat.lt_of_succ_le hlen)]
        have e1 : f - (c2 :: cs2).length = f + 1 - (c :: c2 :: cs2).length := by
          simp only [List.length_cons]; omega
        have e2 : t + 1 + (c2 :: cs2).length = t + (c :: c2 :: cs2).length := by
          simp only [List.length_cons]; omega
        rw [e1, e2]
        simp [List.append_assoc]

/-- Once the idle clock is primed at tick `ld` and only silence follows, the
loop breaks by the idle check exactly at tick `ld + idle`, keeping the
accumulated buffer. -/
theorem receive_loop_primed (idle : Nat) :
    ∀ (fuel t ld : Nat) (polls : List (List Nat)) (acc : List Nat),
      (∀ c ∈ polls, c = []) → ld ≤ t → t ≤ ld + idle → ld + idle < t + fuel →
      receive_loop idle fuel t polls (some ld) acc =
        (acc, ExitReason.idleBreak, ld + idle) := by
  intro fuel
  induction fuel with
  | zero => intro t ld polls acc _ h1 h2 h3; omega
  | succ f ih =>
    intro t ld polls acc hp h1 h2 h3
    have hh : polls.headD [] = [] := by
      cases polls with
      | nil => rfl
      | cons c cs => rw [List.headD_cons]; exact hp c (by simp)
    by_cases hbr : idle ≤ t - ld
    · have ht : t = ld + idle := by omega
      rw [show receive_loop idle (f + 1) t polls (some ld) acc =
          (acc, ExitReason.idleBreak, t) from by
        simp only [receive_loop]; rw [hh]; simp [hbr]]
      rw [ht]
    · rw [show receive_loop idle (f + 1) t polls (some ld) acc =
          receive_loop idle f (t + 1) polls.tail (some ld) acc from by
        simp only [receive_loop]; rw [hh]; simp [hbr]]
      exact ih (t + 1) ld polls.tail acc
        (fun c hc => hp c (List.mem_of_mem_tail hc))
        (by omega) (by omega) (by omega)

/-- Whatever the poll trace, the loop never runs past its fuel: the tick at
which it ends is at most the starting tick plus the remaining fuel. -/
theorem receive_loop_le (idle : Nat) :
    ∀ (fuel t : Nat) (polls : List (List Nat)) (last : Option Nat)
      (acc : List Nat),
      (receive_loop idle fuel t polls last acc).2.2 ≤ t + fuel := by
  intro fuel
  induction fuel with
  | zero => intro t polls last acc; simp [receive_loop]
  | succ f ih =>
    intro t polls last acc
    simp only [receive_loop]
    by_cases hh : polls.headD [] = []
    · rw [if_pos hh]
      cases last with
      | none =>
        show (receive_loop idle f (t + 1) polls.tail none acc).2.2 ≤ t + (f + 1)
        have := ih (t + 1) polls.tail none acc
        omega
      | some ld =>
        show (if idle ≤ t - ld then (acc, ExitReason.idleBreak, t)
          else receive_loop idle f (t + 1) polls.tail (some ld) acc).2.2 ≤
            t + (f + 1)
        by_cases hbr : idle ≤ t - ld
        · rw [if_pos hbr]
          show t ≤ t + (f + 1)
          omega
        · rw [if_neg hbr]
          have := ih (t + 1) polls.tail (some ld) acc
          omega
    · rw [if_neg hh]
      have := ih (t + 1) polls.tail (some t) (acc ++ polls.headD [])
      omega

/-- The concatenation of a non-empty list of non-empty chunks is non-empty. -/
theorem flatten_ne_nil {cs : List (List Nat)} (hne : cs ≠ [])
    (hcs : ∀ c ∈ cs, c ≠ []) : cs.flatten ≠ [] := by
  obtain ⟨c, cs', rfl⟩ := List.exists_cons_of_ne_nil hne
  have hc : c ≠ [] := hcs c (by simp)
  intro h
  rw [List.flatten_cons] at h
  exact hc (List.append_eq_nil.1 h).1

/-! ### Sample inputs used by the witnesses -/

/-- The DMS token `+008d35'28.86540"`. -/
def dmsSample : List Char :=
  "+008d35".toList ++ [apos] ++ "28.86540".toList ++ [quot]

/-- The DMS token of the longitude of `coordLineA`. -/
def tokLon : List Char :=
  "-008d35".toList ++ [apos] ++ "28.86540".toList ++ [quot]

/-- The DMS token of the latitude of `coordLineA`. -/
def tokLat : List Char :=
  "+041d06".toList ++ [apos] ++ "52.58100".toList ++ [quot]

/-- The coordinate line `-008d35'28.86540",+041d06'52.58100",01769;`. -/
def coordLineA : List Char := tokLon ++ [','] ++ tokLat ++ [','] ++ "01769;".toList

/-- A sample Area header line. -/
def hdrLineA : List Char := "n1,m2,l3;t202401151030,N4".toList

/-- A sample Track header line. -/
def hdrLineB : List Char := "n2,k5,l6;t202402161131,N7".toList

/-- The header parsed from `hdrLineA`. -/
def hdA : Header :=
  headerOfCaps ⟨['1'], 'm', ['2'], 'l', ['3'], "202401151030".toList, ['4']⟩

/-- The header parsed from `hdrLineB`. -/
def hdB : Header :=
  headerOfCaps ⟨['2'], 'k', ['5'], 'l', ['6'], "202402161131".toList, ['7']⟩

/-- A headerless session buffer: one coordinate line, a sentinel, a blank. -/
def coordBytes : List Nat := coordLineA.map Char.toNat ++ [10, 33, 10]

/-- A session buffer with one header line and one coordinate line. -/
def headeredBytes : List Nat :=
  hdrLineA.map Char.toNat ++ [10] ++ coordLineA.map Char.toNat ++ [10, 33, 10]

/-- The header field dispatch falls to the Unknown case when no table row
applies. -/
theorem header_fields_unknown {f1 f2 : Char} (v1 v2 : List Char)
    (h1 : ¬(f1 = 'm' ∧ f2 = 'l')) (h2 : ¬(f1 = 'l' ∧ f2 = 'm'))
    (h3 : ¬(f1 = 'p' ∧ f2 = 'p')) (h4 : ¬(f1 = 'k' ∧ f2 = 'l')) :
    header_fields f1 f2 v1 v2 = (DataType.Unknown f1 f2, 0, 0) := by
  unfold header_fields
  rw [if_neg h1, if_neg h2, if_neg h3, if_neg h4]

/-! ### Claims -/

/-- C1: the claim says a receive session ending by idle or hard timeout
with zero bytes and no transport failure returns an empty-buffer success
result distinguishable from the transport-error result.  The code instead
returns `None` for the zero-byte session — literally the same value it
returns when the channel is unavailable — so an empty reception is
reported exactly like a channel error.  Here: five silent polls on a
connected channel produce `none`, identical to the disconnected result. -/
theorem receive_zero_bytes_conflated_with_error :
    receive_data 5 3 true [] = none ∧ receive_data 5 3 false [] = none := by
  exact ⟨by decide, by decide⟩

/-- C8: the idle timeout is never checked before the first chunk arrives
(an all-silent session runs to the hard timeout); once chunks have
arrived, a silent gap of `idle` ticks ends reception by the idle break at
tick `last-data + idle` — strictly before the hard timeout — returning
exactly the concatenation of the chunks, and `receive_data` yields that
concatenation. -/
theorem receive_idle_timing (timeout idle : Nat) (polls cs : List (List Nat))
    (hpolls : ∀ c ∈ polls, c = []) (hcs : ∀ c ∈ cs, c ≠ []) (hne : cs ≠ [])
    (hidle : 1 ≤ idle) (hfit : cs.length + idle ≤ timeout) :
    receive_loop idle timeout 0 polls none [] =
      ([], ExitReason.hardTimeout, timeout)
    ∧ receive_loop idle timeout 0 cs none [] =
      (cs.flatten, ExitReason.idleBreak, cs.length - 1 + idle)
    ∧ receive_data timeout idle true cs = some cs.flatten
    ∧ ∀ polls2 : List (List Nat),
      (receive_loop idle timeout 0 polls2 none []).2.2 ≤ timeout := by
  have hlen1 : 1 ≤ cs.length := by
    cases cs with
    | nil => exact absurd rfl hne
    | cons a b => simp
  have hlen : cs.length ≤ timeout := by omega
  have h2 : receive_loop idle timeout 0 cs none [] =
      receive_loop idle (timeout - cs.length) cs.length []
        (some (cs.length - 1)) cs.flatten := by
    have := receive_loop_chunks idle [] cs hne hcs timeout 0 none [] hlen
    simpa using this
  have h3 := receive_loop_primed idle (timeout - cs.length) cs.length
    (cs.length - 1) [] cs.flatten (by simp) (by omega) (by omega) (by omega)
  have h4 : receive_loop idle timeout 0 cs none [] =
      (cs.flatten, ExitReason.idleBreak, cs.length - 1 + idle) := by
    rw [h2, h3]
  refine ⟨?_, h4, ?_, ?_⟩
  · have h1 := receive_loop_silent idle timeout 0 polls [] hpolls
    simpa using h1
  · have hfl := flatten_ne_nil hne hcs
    simp [receive_data, h4, hfl]
  · intro polls2
    have := receive_loop_le idle timeout 0 polls2 none []
    omega

/-- Witness for C8: three chunks then silence end by the idle break at tick
5 with the concatenation, while an all-silent session runs to the hard
timeout. -/
theorem receive_idle_timing_witness :
    receive_loop 3 10 0 [[], [], []] none [] = ([], ExitReason.hardTimeout, 10)
    ∧ receive_loop 3 10 0 [[1], [2], [3]] none [] =
      ([1, 2, 3], ExitReason.idleBreak, 5)
    ∧ receive_data 10 3 true [[1], [2], [3]] = some [1, 2, 3]
    ∧ (receive_loop 3 10 0 [[9], []] none []).2.2 ≤ 10 := by
  obtain ⟨w1, w2, w3, w4⟩ := receive_idle_timing 10 3 [[], [], []]
    [[1], [2], [3]] (by decide) (by decide) (by decide) (by decide) (by decide)
  exact ⟨by simpa using w1, by simpa using w2, by simpa using w3, w4 [[9], []]⟩

/-- C2: for every line matching the header grammar, the kind and the
coordinate assignment follow the field-pair table exactly: (m,l) gives
Area with latitude = value1/10,000,000 and longitude = value2/10,000,000;
(l,m) gives Distance with longitude = value1/10,000,000 and latitude =
value2/10,000,000; (p,p) gives Waypoint with latitude = value1/10,000,000
and longitude = value2/10,000,000; (k,l) gives Track with longitude =
value2/10,000,000 and latitude left at 0; any other pair gives
Unknown(field1,field2) with both coordinates 0. -/
theorem parse_header_line_kind_table (line : List Char) (caps : HeaderCaps)
    (rest : List Char) (h : header_match line = some (caps, rest)) :
    ∃ hd, parse_header_line line = some hd ∧
      ((caps.field1 = 'm' ∧ caps.field2 = 'l') →
        hd.dtype = DataType.Area ∧
        hd.latitude = (digitsToNat caps.value1 : ℚ) / 10000000 ∧
        hd.longitude = (digitsToNat caps.value2 : ℚ) / 10000000) ∧
      ((caps.field1 = 'l' ∧ caps.field2 = 'm') →
        hd.dtype = DataType.Distance ∧
        hd.longitude = (digitsToNat caps.value1 : ℚ) / 10000000 ∧
        hd.latitude = (digitsToNat caps.value2 : ℚ) / 10000000) ∧
      ((caps.field1 = 'p' ∧ caps.field2 = 'p') →
        hd.dtype = DataType.Waypoint ∧
        hd.latitude = (digitsToNat caps.value1 : ℚ) / 10000000 ∧
        hd.longitude = (digitsToNat caps.value2 : ℚ) / 10000000) ∧
      ((caps.field1 = 'k' ∧ caps.field2 = 'l') →
        hd.dtype = DataType.Track ∧
        hd.longitude = (digitsToNat caps.value2 : ℚ) / 10000000 ∧
        hd.latitude = 0) ∧
      (¬((caps.field1 = 'm' ∧ caps.field2 = 'l') ∨
         (caps.field1 = 'l' ∧ caps.field2 = 'm') ∨
         (caps.field1 = 'p' ∧ caps.field2 = 'p') ∨
         (caps.field1 = 'k' ∧ caps.field2 = 'l')) →
        hd.dtype = DataType.Unknown caps.field1 caps.field2 ∧
        hd.latitude = 0 ∧ hd.longitude = 0) := by
  obtain ⟨rn, f1, v1, f2, v2, ts, tot⟩ := caps
  refine ⟨headerOfCaps ⟨rn, f1, v1, f2, v2, ts, tot⟩, ?_, ?_, ?_, ?_, ?_, ?_⟩
  · simp only [parse_header_line, h, Option.map_some']
  · rintro ⟨ha, hb⟩; subst ha; subst hb; exact ⟨rfl, rfl, rfl⟩
  · rintro ⟨ha, hb⟩; subst ha; subst hb; exact ⟨rfl, rfl, rfl⟩
  · rintro ⟨ha, hb⟩; subst ha; subst hb; exact ⟨rfl, rfl, rfl⟩
  · rintro ⟨ha, hb⟩; subst ha; subst hb; exact ⟨rfl, rfl, rfl⟩
  · intro hnot
    have h1 : ¬(f1 = 'm' ∧ f2 = 'l') := fun hc => hnot (Or.inl hc)
    have h2 : ¬(f1 = 'l' ∧ f2 = 'm') := fun hc => hnot (Or.inr (Or.inl hc))
    have h3 : ¬(f1 = 'p' ∧ f2 = 'p') :=
      fun hc => hnot (Or.inr (Or.inr (Or.inl hc)))
    have h4 : ¬(f1 = 'k' ∧ f2 = 'l') :=
      fun hc => hnot (Or.inr (Or.inr (Or.inr hc)))
    have hu := header_fields_unknown v1 v2 h1 h2 h3 h4
    refine ⟨?_, ?_, ?_⟩
    · show (header_fields f1 f2 v1 v2).1 = _
      rw [hu]
    · show (header_fields f1 f2 v1 v2).2.1 = _
      rw [hu]
    · show (header_fields f1 f2 v1 v2).2.2 = _
      rw [hu]

/-- Witness for C2: a concrete Distance header line matches the grammar and
parses. -/
theorem parse_header_line_kind_table_witness :
    (parse_header_line ("n7,l22,m33;t202401151030,N9".toList)).isSome = true := by
  obtain ⟨hd, hhd, -⟩ := parse_header_line_kind_table
    ("n7,l22,m33;t202401151030,N9".toList)
    ⟨['7'], 'l', ['2', '2'], 'm', ['3', '3'], "202401151030".toList, ['9']⟩ []
    (by decide)
  rw [hhd]; rfl

/-- C3 counterexample: the header regex accepts any positive number of
timestamp digits, not exactly twelve — a line whose timestamp run is the
three digits 123 still parses as a header. -/
theorem header_short_timestamp_parses :
    header_match ("n1,m2,l3;t123,N4".toList) =
      some (⟨['1'], 'm', ['2'], 'l', ['3'], ['1', '2', '3'], ['4']⟩, [])
    ∧ (parse_header_line ("n1,m2,l3;t123,N4".toList)).isSome = true := by
  exact ⟨by decide, by decide⟩

/-- C3 (amended): a line parses as a header only when it matches
`n<digits>,<letter><digits>,<letter><digits>;t<digits>,N<digits>` where the
timestamp is a non-empty digit run of any length (the regex does not force
twelve digits), and the timestamp digits are split positionally — chars
0–3 year, 4–5 month, 6–7 day, 8–9 hour, 10–11 minute, slices being shorter
when fewer digits are present — with no validation that they form a real
calendar date. -/
theorem header_grammar_and_timestamp_split (cs : List Char) (hd : Header)
    (h : parse_header_line cs = some hd) :
    ∃ caps rest, header_match cs = some (caps, rest) ∧
      caps.tstamp ≠ [] ∧ (∀ c ∈ caps.tstamp, c.isDigit) ∧
      hd.tstamp = caps.tstamp.take 4 ++ '-' :: (caps.tstamp.drop 4).take 2 ++
        '-' :: (caps.tstamp.drop 6).take 2 ++
        ' ' :: (caps.tstamp.drop 8).take 2 ++
        ':' :: (caps.tstamp.drop 10).take 2 := by
  simp only [parse_header_line, Option.map_eq_some'] at h
  obtain ⟨⟨caps, rest⟩, hm, hh⟩ := h
  have hdig := header_match_tstamp_digits hm
  exact ⟨caps, rest, hm, hdig.1, hdig.2, by rw [← hh]; rfl⟩

/-- Witness for C3: the short-timestamp header line satisfies the amended
grammar-and-split statement. -/
theorem header_grammar_and_timestamp_split_witness :
    ∃ caps rest, header_match ("n5,p6,p7;t999,N8".toList) =
      some (caps, rest) := by
  have hmatch : header_match ("n5,p6,p7;t999,N8".toList) =
      some (⟨['5'], 'p', ['6'], 'p', ['7'], ['9', '9', '9'], ['8']⟩, []) := by
    decide
  obtain ⟨caps, rest, hm, -⟩ := header_grammar_and_timestamp_split
    ("n5,p6,p7;t999,N8".toList)
    (headerOfCaps ⟨['5'], 'p', ['6'], 'p', ['7'], ['9', '9', '9'], ['8']⟩)
    (by simp only [parse_header_line]; rw [hmatch]; rfl)
  exact ⟨caps, rest, hm⟩

/-- C4: for every token matching the DMS shape the parse returns
`sign * (degrees + minutes/60 + seconds/3600)` where the sign factor is −1
exactly when the sign character is the minus sign and +1 otherwise and the
sign multiplies only the final sum; a token not matching the shape returns
`none`. -/
theorem parse_dms_coordinate_formula (cs : List Char) :
    (∀ caps rest, dms_match cs = some (caps, rest) →
      parse_dms_coordinate cs = some
        ((if caps.sign = '-' then (-1 : ℚ) else 1) *
          ((digitsToNat caps.degrees : ℚ) + (digitsToNat caps.minutes : ℚ) / 60 +
            ((digitsToNat caps.secInt : ℚ) +
              (digitsToNat caps.secFrac : ℚ) / 10 ^ caps.secFrac.length) /
              3600)))
    ∧ (dms_match cs = none → parse_dms_coordinate cs = none) := by
  constructor
  · intro caps rest h
    simp [parse_dms_coordinate, h]
  · intro h
    simp [parse_dms_coordinate, h]

/-- Witness for C4: the positive sample token decodes to 8.5913515 obtained
with sign +1, and a non-matching token yields none. -/
theorem parse_dms_coordinate_formula_witness :
    parse_dms_coordinate dmsSample = some (17182703 / 2000000 : ℚ)
    ∧ parse_dms_coordinate ("abc".toList) = none := by
  refine ⟨?_, (parse_dms_coordinate_formula ("abc".toList)).2 (by decide)⟩
  rw [(parse_dms_coordinate_formula dmsSample).1
    ⟨'+', ['0', '0', '8'], ['3', '5'], ['2', '8'], ['8', '6', '5', '4', '0']⟩
    [] (by decide)]
  rw [if_neg (by decide : ¬('+' : Char) = '-')]
  rw [show digitsToNat ['0', '0', '8'] = 8 from rfl,
    show digitsToNat ['3', '5'] = 35 from rfl,
    show digitsToNat ['2', '8'] = 28 from rfl,
    show digitsToNat ['8', '6', '5', '4', '0'] = 86540 from rfl,
    show (['8', '6', '5', '4', '0'] : List Char).length = 5 from rfl]
  norm_num

/-- C5: a buffer whose non-blank, non-sentinel lines are all coordinate
lines and that contains no header line yields exactly one Track, with
`header = none` and the points in the order the coordinate lines appear. -/
theorem coords_only_single_track (data : List Nat)
    (hall : ∀ l ∈ linesOf data, trim l = [] ∨ trim l = ['!'] ∨
      (parse_header_line (trim l) = none ∧ (parse_track_line (trim l)).isSome))
    (hsome : ∃ l ∈ linesOf data, (parse_track_line (trim l)).isSome) :
    parse_raw_data data =
      [(none, (linesOf data).filterMap (fun l => parse_track_line (trim l)))] := by
  rw [parse_raw_data, assemble_coords_aux (linesOf data) hall []]
  obtain ⟨l, hl, hs⟩ := hsome
  obtain ⟨p, hp⟩ := Option.isSome_iff_exists.1 hs
  have hne : (linesOf data).filterMap (fun l => parse_track_line (trim l)) ≠ [] := by
    intro hnil
    have := List.filterMap_eq_nil_iff.1 hnil l hl
    rw [hp] at this
    exact Option.noConfusion this
  simp [hne]

/-- Witness for C5: a buffer with one coordinate line, a sentinel line and
a blank line yields one headerless track. -/
theorem coords_only_single_track_witness :
    parse_raw_data coordBytes =
      [(none, (linesOf coordBytes).filterMap (fun l => parse_track_line (trim l)))] :=
  coords_only_single_track coordBytes (by decide) (by decide)

/-- C6: every header line starts a new Track: a header immediately followed
by another header still yields a Track for the first header with an empty
point sequence, and the Track headers appear in the order of the header
lines. -/
theorem header_always_starts_new_track (l1 l2 : List Char)
    (rest : List (List Char)) (h1 h2 : Header) (cur : Option Header)
    (pts : List Point)
    (e1 : parse_header_line (trim l1) = some h1)
    (e2 : parse_header_line (trim l2) = some h2) :
    assembleLines (l1 :: l2 :: rest) cur pts =
      (if cur.isSome || !pts.isEmpty then [(cur, pts)] else []) ++
        (some h1, []) :: assembleLines rest (some h2) []
    ∧ (assembleLines (l1 :: l2 :: rest) cur pts).filterMap Prod.fst =
        cur.toList ++ h1 :: h2 :: rest.filterMap (fun l => parse_header_line (trim l)) := by
  have hs1 : ¬(trim l1 = [] ∨ trim l1 = ['!']) := by
    rintro (h | h) <;> rw [h] at e1
    · exact Option.noConfusion (parse_header_line_nil ▸ e1)
    · exact Option.noConfusion (parse_header_line_bang ▸ e1)
  have hs2 : ¬(trim l2 = [] ∨ trim l2 = ['!']) := by
    rintro (h | h) <;> rw [h] at e2
    · exact Option.noConfusion (parse_header_line_nil ▸ e2)
    · exact Option.noConfusion (parse_header_line_bang ▸ e2)
  constructor
  · rw [show assembleLines (l1 :: l2 :: rest) cur pts =
        (if cur.isSome || !pts.isEmpty then [(cur, pts)] else []) ++
          assembleLines (l2 :: rest) (some h1) [] from by
      simp [assembleLines, hs1, e1]]
    congr 1
    rw [show assembleLines (l2 :: rest) (some h1) [] =
        (if (some h1 : Option Header).isSome || !(([] : List Point)).isEmpty then
          [((some h1 : Option Header), ([] : List Point))] else []) ++
          assembleLines rest (some h2) [] from by
      simp [assembleLines, hs2, e2]]
    simp
  · rw [assemble_headers]
    simp [e1, e2]

/-- Witness for C6: two consecutive concrete header lines produce an
empty-point track for the first and hand the second on as current. -/
theorem header_always_starts_new_track_witness :
    assembleLines [hdrLineA, hdrLineB] none [] =
      (some hdA, []) :: assembleLines [] (some hdB) [] := by
  have hmA : header_match (trim hdrLineA) =
      some (⟨['1'], 'm', ['2'], 'l', ['3'], "202401151030".toList, ['4']⟩, []) := by
    decide
  have hmB : header_match (trim hdrLineB) =
      some (⟨['2'], 'k', ['5'], 'l', ['6'], "202402161131".toList, ['7']⟩, []) := by
    decide
  have := (header_always_starts_new_track hdrLineA hdrLineB [] hdA hdB none []
    (by simp only [parse_header_line]; rw [hmA]; rfl)
    (by simp only [parse_header_line]; rw [hmB]; rfl)).1
  simpa using this

/-- C7: line-level failures never escape: a line matching neither grammar
is skipped without affecting the fold state, and a buffer in which no line
parses yields the empty track list rather than an error. -/
theorem unparseable_lines_skipped (l : List Char) (ls : List (List Char))
    (cur : Option Header) (pts : List Point) (data : List Nat)
    (hl1 : parse_header_line (trim l) = none)
    (hl2 : parse_track_line (trim l) = none)
    (hdata : ∀ m ∈ linesOf data, parse_header_line (trim m) = none ∧
      parse_track_line (trim m) = none) :
    assembleLines (l :: ls) cur pts = assembleLines ls cur pts
    ∧ parse_raw_data data = [] := by
  constructor
  · by_cases hskip : trim l = [] ∨ trim l = ['!']
    · simp [assembleLines, hskip]
    · simp [assembleLines, hskip, hl1, hl2]
  · rw [parse_raw_data]
    exact assemble_skip_all (linesOf data) hdata

/-- Witness for C7 on concrete unparseable input. -/
theorem unparseable_lines_skipped_witness :
    assembleLines ["zzz".toList] none [] = assembleLines [] none []
    ∧ parse_raw_data ("no gps here".toList.map Char.toNat) = [] :=
  unparseable_lines_skipped ("zzz".toList) [] none []
    ("no gps here".toList.map Char.toNat) (by decide) (by decide) (by decide)

/-- C9: with `split_by_track` set but no assembled track carrying a header,
`export_tracks` falls back to the single combined output of all points
concatenated in track order; per-track files are produced only when some
track has a header, and on that path tracks with no points are skipped. -/
theorem export_split_fallback (data : List Nat) (fmt : OutputFormat)
    (hf : fmt ≠ OutputFormat.raw) :
    ((∀ t ∈ parse_raw_data data, t.1 = none) →
      export_tracks data fmt true =
        ExportPlan.combined
          ((parse_raw_data data).foldl (fun acc t => acc ++ t.2) []))
    ∧ ((∃ t ∈ parse_raw_data data, t.1.isSome) →
      export_tracks data fmt true =
        ExportPlan.perTrack
          ((parse_raw_data data).filter fun t => !t.2.isEmpty)) := by
  constructor
  · intro h
    have hany : (parse_raw_data data).any (fun t => t.1.isSome) = false := by
      rw [List.any_eq_false]
      intro t ht
      rw [h t ht]
      exact Bool.false_ne_true
    simp [export_tracks, hf, hany]
  · intro h
    have hany : (parse_raw_data data).any (fun t => t.1.isSome) = true :=
      List.any_eq_true.2 h
    simp [export_tracks, hf, hany]

/-- Witness for C9: a headerless buffer falls back to the combined plan and
a headered buffer takes the per-track plan. -/
theorem export_split_fallback_witness :
    export_tracks coordBytes OutputFormat.kml true =
      ExportPlan.combined
        ((parse_raw_data coordBytes).foldl (fun acc t => acc ++ t.2) [])
    ∧ export_tracks headeredBytes OutputFormat.kml true =
      ExportPlan.perTrack
        ((parse_raw_data headeredBytes).filter fun t => !t.2.isEmpty) :=
  ⟨(export_split_fallback coordBytes OutputFormat.kml (by decide)).1 (by decide),
   (export_split_fallback headeredBytes OutputFormat.kml (by decide)).2 (by decide)⟩

/-- C10: both line grammars are matched as prefixes of the line, not
against the whole line: when a line exactly matches a grammar, appending
arbitrary trailing characters (for the header grammar, any trailing part
that does not begin with a digit, which would extend the final greedy digit
group) leaves the classification and every parsed field unchanged. -/
theorem trailing_chars_ignored (preH preC junkH junkC : List Char)
    (capsH : HeaderCaps) (capsC : List Char × List Char × List Char)
    (hH : header_match preH = some (capsH, []))
    (hC : track_match preC = some (capsC, []))
    (hjH : ((junkH.headD ' ').isDigit) = false) :
    parse_header_line (preH ++ junkH) = parse_header_line preH
    ∧ parse_track_line (preC ++ junkC) = parse_track_line preC := by
  constructor
  · rw [show parse_header_line (preH ++ junkH) =
        (header_match (preH ++ junkH)).map (fun p => headerOfCaps p.1) from rfl]
    rw [header_match_append junkH hH hjH]
    simp [parse_header_line, hH]
  · have hca := track_match_append junkC hC
    rw [show parse_track_line (preC ++ junkC) =
        (track_match (preC ++ junkC)).bind (fun p =>
          match parse_dms_coordinate p.1.1, parse_dms_coordinate p.1.2.1 with
          | some lon, some lat => some (lon, lat, digitsToNat p.1.2.2)
          | _, _ => none) from rfl]
    rw [hca]
    rw [show parse_track_line preC =
        (track_match preC).bind (fun p =>
          match parse_dms_coordinate p.1.1, parse_dms_coordinate p.1.2.1 with
          | some lon, some lat => some (lon, lat, digitsToNat p.1.2.2)
          | _, _ => none) from rfl]
    rw [hC]
    rfl

/-- Witness for C10 at a concrete header line and coordinate line with
trailing garbage. -/
theorem trailing_chars_ignored_witness :
    parse_header_line (hdrLineA ++ ";xyz".toList) = parse_header_line hdrLineA
    ∧ parse_track_line (coordLineA ++ "anything123".toList) =
      parse_track_line coordLineA :=
  trailing_chars_ignored hdrLineA coordLineA (";xyz".toList)
    ("anything123".toList)
    ⟨['1'], 'm', ['2'], 'l', ['3'], "202401151030".toList, ['4']⟩
    (tokLon, tokLat, ['0', '1', '7', '6', '9'])
    (by decide) (by decide) (by decide)

end Wanggan
